import Mathlib

/-!
Shallow embedding of the `gs-cli` repository (crates `cli` and `translator`)
and verification of the frozen claims about its specification.

The `translator` crate defines depth-tagged grammar nodes stored in an
`indextree` arena; the `cli` crate tokenizes input lines, matches them
against the grammar (`Cli::build_subtree`), and interprets `cd` navigation
(`Cli::change_root`).  The embedding below mirrors those functions over an
explicit arena of nodes; `indextree`'s `ancestors`/`descendants` iterators
include the starting node itself, which the embedding reproduces.
-/

namespace GsCli

/-- `translator::Depth`: an exact depth or the wildcard `Any`. -/
inductive Depth where
  | any : Depth
  | some : Nat → Depth
deriving DecidableEq, Repr

/-- `impl PartialEq for Depth`: two numeric depths compare by value;
if either side is the wildcard the comparison is true. -/
def Depth.eqb : Depth → Depth → Bool
  | .some d1, .some d2 => d1 == d2
  | _, _ => true

/-- `translator::Node`: a name, an optional explanation and a depth tag. -/
structure Node where
  name : String
  explanation : Option String
  depth : Depth
deriving DecidableEq, Repr

instance : Inhabited Node := ⟨⟨"", none, .any⟩⟩

/-- `impl PartialEq for Node`: names, explanations and depths must all agree
(depths under `Depth.eqb`). -/
def Node.eqb (a b : Node) : Bool :=
  a.name == b.name && a.explanation == b.explanation && Depth.eqb a.depth b.depth

/-- `Node::new`: an empty explanation string is stored as `None`. -/
def Node.new (name explanation : String) (depth : Depth) : Node :=
  { name := name
    explanation := if explanation = "" then none else some explanation
    depth := depth }

/-- One slot of the arena: the node's data, its parent link and its children
in insertion order (the equivalent of `indextree`'s sibling links). -/
structure ArenaEntry where
  data : Node
  parent : Option Nat
  children : List Nat
deriving DecidableEq, Repr

instance : Inhabited ArenaEntry := ⟨⟨default, none, []⟩⟩

/-- `indextree::Arena<Node>`: node ids are indices into the slot list. -/
structure Arena where
  nodes : List ArenaEntry
deriving DecidableEq, Repr

def Arena.empty : Arena := ⟨[]⟩

def Arena.get (a : Arena) (i : Nat) : ArenaEntry :=
  a.nodes.getD i default

/-- Replace the entry at index `i` by `f` of it (out of range: unchanged). -/
def listModify (l : List ArenaEntry) (i : Nat) (f : ArenaEntry → ArenaEntry) :
    List ArenaEntry :=
  match l, i with
  | [], _ => []
  | x :: xs, 0 => f x :: xs
  | x :: xs, i + 1 => x :: listModify xs i f

def Arena.modify (a : Arena) (i : Nat) (f : ArenaEntry → ArenaEntry) : Arena :=
  ⟨listModify a.nodes i f⟩

/-- `Arena::new_node`: push a fresh parentless, childless slot, return its id. -/
def Arena.newNode (a : Arena) (n : Node) : Arena × Nat :=
  (⟨a.nodes ++ [⟨n, none, []⟩]⟩, a.nodes.length)

/-- `NodeId::append(child)`: detach `c` from its current parent, then attach
it as the last child of `p` (exactly `indextree`'s detach-and-append). -/
def Arena.append (a : Arena) (p c : Nat) : Arena :=
  let a :=
    match (a.get c).parent with
    | Option.some q => a.modify q (fun e => { e with children := e.children.filter (· ≠ c) })
    | none => a
  let a := a.modify c (fun e => { e with parent := Option.some p })
  a.modify p (fun e => { e with children := e.children ++ [c] })

/-- `NodeId::ancestors`: the node itself, then its parent chain, nearest
first.  `indextree` yields the starting node as the first element; the fuel
(the arena size) covers every parent chain of a tree-shaped arena. -/
def Arena.ancestorsAux (a : Arena) : Nat → Nat → List Nat
  | 0, _ => []
  | fuel + 1, i =>
    i :: (match (a.get i).parent with
          | none => []
          | Option.some p => a.ancestorsAux fuel p)

def Arena.ancestors (a : Arena) (i : Nat) : List Nat :=
  a.ancestorsAux a.nodes.length i

/-- `NodeId::descendants`: pre-order traversal including the node itself. -/
def Arena.descendantsAux (a : Arena) : Nat → Nat → List Nat
  | 0, _ => []
  | fuel + 1, i => i :: ((a.get i).children.flatMap (a.descendantsAux fuel))

def Arena.descendants (a : Arena) (i : Nat) : List Nat :=
  a.descendantsAux a.nodes.length i

/-- `translator::subtree_count`: pre-order descendant count minus one, i.e.
the number of strict descendants. -/
def subtreeCount (i : Nat) (a : Arena) : Nat :=
  (a.descendants i).length - 1

/-- `translator::Tree`: a root id plus the arena owning all nodes. -/
structure Tree where
  root : Nat
  arena : Arena
deriving DecidableEq, Repr

/-- `Tree::new`: an arena holding only the node `root` at depth 0. -/
def Tree.new : Tree :=
  let p := Arena.empty.newNode (Node.new "root" "" (.some 0))
  ⟨p.2, p.1⟩

/-- `cli::CliCmd`: a tokenized input word plus its expected depth. -/
structure CliCmd where
  cmd : String
  depth : Depth
deriving DecidableEq, Repr

/-- The derived `PartialEq` of `CliCmd`: both fields compare, the depth field
with `Depth`'s wildcard-friendly equality. -/
def cliCmdEqCliCmd (a b : CliCmd) : Bool :=
  a.cmd == b.cmd && Depth.eqb a.depth b.depth

/-- `impl PartialEq<Node> for CliCmd`: only the name and the depth compare;
the node's explanation takes no part. -/
def cliCmdEqNode (c : CliCmd) (n : Node) : Bool :=
  c.cmd == n.name && Depth.eqb c.depth n.depth

/-- The distinguished "go up" token of `Cli::build_subtree`. -/
def upClicmd : CliCmd := ⟨"..", .any⟩

/-- Rust `str::split(delim)`: every piece kept, empty pieces included. -/
def splitCharAux (delim : Char) : List Char → List Char → List (List Char)
  | [], acc => [acc.reverse]
  | c :: rest, acc =>
    if c = delim then acc.reverse :: splitCharAux delim rest []
    else splitCharAux delim rest (c :: acc)

def splitChar (delim : Char) (l : List Char) : List (List Char) :=
  splitCharAux delim l []

/-- `Cli::construct_clicmds`: split the input on `delim`, strip one trailing
newline from a piece, and tag piece `i` (0-based) with depth `i + 1`. -/
def constructClicmds (input : String) (delim : Char) : List CliCmd :=
  (splitChar delim input.toList).enum.map fun p =>
    { cmd := ⟨if p.2.getLast? = Option.some '\n' then p.2.dropLast else p.2⟩
      depth := .some (p.1 + 1) }

/-- The first child of the scanned list whose node data equals the token
under `cliCmdEqNode` (insertion order). -/
def findChild (valid : Arena) (cmd : CliCmd) : List Nat → Option Nat
  | [] => none
  | c :: cs =>
    if cliCmdEqNode cmd (valid.get c).data then Option.some c
    else findChild valid cmd cs

/-- Append a copy of a grammar node's data to the sequence tree, as the next
child of the sequence tree's root (`Node::from_node_to_id` + `append`). -/
def seqAppend (t : Tree) (n : Node) : Tree :=
  let p := t.arena.newNode n
  ⟨t.root, p.1.append t.root p.2⟩

/-- The matcher's outcome: the sequence tree, the final grammar node, and
(ghost bookkeeping of the control flow) the tokens from the first token that
matched no child onwards — `[]` when the loop ran through all tokens. -/
structure BuildResult where
  seq : Tree
  final : Nat
  unconsumed : List CliCmd
deriving DecidableEq, Repr

/-- The loop of `Cli::build_subtree`.  For each token: if it equals
`upClicmd`, the first element of `root.ancestors(..)` (which is `root`
itself) is copied into the sequence tree and becomes the new `root`; then the
token is compared against `root`'s children in insertion order; on a match
the child is copied into the sequence tree and becomes the new `root`,
otherwise the loop breaks. -/
def buildSubtreeAux (valid : Arena) : List CliCmd → Nat → Tree → BuildResult
  | [], root, seq => ⟨seq, root, []⟩
  | cmd :: rest, root, seq =>
    let st :=
      if cliCmdEqCliCmd cmd upClicmd then
        match (valid.ancestors root).head? with
        | Option.some p => (p, seqAppend seq (valid.get p).data)
        | none => (root, seq)
      else (root, seq)
    match findChild valid cmd (valid.get st.1).children with
    | Option.some child => buildSubtreeAux valid rest child (seqAppend st.2 (valid.get child).data)
    | none => ⟨st.2, st.1, cmd :: rest⟩

/-- `Cli::build_subtree`: run the loop from the current root with a fresh
sequence tree. -/
def buildSubtree (valid : Arena) (start : Nat) (cmds : List CliCmd) : BuildResult :=
  buildSubtreeAux valid cmds start Tree.new

/-- The acceptance test of `Cli::handle_input`: the sequence tree's strict
descendant count equals the token count, and the final node has no strict
descendants in the grammar. -/
def acceptedCmds (cfg : Tree) (start : Nat) (cmds : List CliCmd) : Bool :=
  let r := buildSubtree cfg.arena start cmds
  subtreeCount r.seq.root r.seq.arena == cmds.length &&
    subtreeCount r.final cfg.arena == 0

/-- `Cli::handle_input`: tokenize on blanks, match, print ACCEPTED (true)
or USAGE (false). -/
def handleInputAccepted (cfg : Tree) (start : Nat) (input : String) : Bool :=
  acceptedCmds cfg start (constructClicmds input ' ')

/-- `Cli::construct_prompt`: collect the names of `root.ancestors(..)`,
reverse, and append every name other than `"root"` followed by `'/'`. -/
def constructPrompt (cfg : Tree) : Option Nat → String
  | none => ""
  | Option.some r =>
    let names := (cfg.arena.ancestors r).map fun i => (cfg.arena.get i).data.name
    names.reverse.foldl (fun acc s => if s ≠ "root" then acc ++ s ++ "/" else acc) ""

/-- The whitespace filter `change_root` applies to its input. -/
def stripWhitespace (input : String) : String :=
  ⟨input.toList.filter fun c => !c.isWhitespace⟩

/-- Rust `str::starts_with(str)` over the characters (all input is ASCII). -/
def strStartsWith (s p : String) : Bool :=
  p.toList.isPrefixOf s.toList

/-- `Cli::change_root`: returns the new current root and the new prompt.
`new_root` starts at the grammar root and `construct_input` at `None`;
only the branches that assign them are reflected in each arm. -/
def changeRoot (cfg : Tree) (currentRoot : Nat) (prevRoot : Option Nat)
    (input : String) : Nat × String :=
  let stripped := stripWhitespace input
  if stripped == "cd" then (cfg.root, constructPrompt cfg none)
  else if stripped == "cd -" then
    match prevRoot with
    | Option.some p => (p, constructPrompt cfg (Option.some p))
    | none => (cfg.root, constructPrompt cfg none)
  else if input == "cd ..\n" then
    match (cfg.arena.ancestors currentRoot).head? with
    | Option.some p => (p, constructPrompt cfg (Option.some p))
    | none => (cfg.root, constructPrompt cfg none)
  else if strStartsWith input "cd /" then (cfg.root, constructPrompt cfg none)
  else if strStartsWith input "cd " then
    let stripped2 :=
      if stripped.toList.getLast? == Option.some '/' then (⟨stripped.toList.dropLast⟩ : String)
      else stripped
    let clicmds := constructClicmds ⟨stripped2.toList.drop 2⟩ '/'
    let r := buildSubtree cfg.arena currentRoot clicmds
    (r.final, constructPrompt cfg (Option.some r.final))
  else (cfg.root, constructPrompt cfg none)

/-- `Cli::should_exit` (the zero-bytes end-of-input case aside). -/
def shouldExit (input : String) : Bool :=
  input == "exit\n" || input == "quit\n"

/-- `Cli::should_new_prompt`. -/
def shouldNewPrompt (input : String) : Bool :=
  input == "\n"

/-- `Cli::should_change_root`: at least two bytes and the first two are
`"cd"`. -/
def shouldChangeRoot (input : String) : Bool :=
  if 2 ≤ input.length then input.toList.take 2 == ['c', 'd'] else false

/-- The session state `Cli::run` threads: the current root, the prompt
prefix, and the one-slot history. -/
structure CliState where
  currentRoot : Nat
  currentPrompt : String
  prevRoot : Option Nat
deriving DecidableEq, Repr

/-- One iteration of the loop in `Cli::run` on a line that keeps the session
alive: exit and blank lines leave the state alone, `cd` lines update
`current_root` and `current_prompt` from `change_root`, every other line goes
to `handle_input`, which changes no session state.  `prev_root` is assigned
nowhere. -/
def runLine (cfg : Tree) (s : CliState) (input : String) : CliState :=
  if shouldExit input then s
  else if shouldNewPrompt input then s
  else if shouldChangeRoot input then
    let p := changeRoot cfg s.currentRoot s.prevRoot input
    { currentRoot := p.1, currentPrompt := p.2, prevRoot := s.prevRoot }
  else s

-- The generic nested document `translator::yaml` consumes: string scalars,
-- lists, ordered mappings, and anything else (skipped by the importer).
-- Mutual inductives keep the recursion of the importer structural.
mutual
inductive Yaml where
  | str : String → Yaml
  | arr : YamlList → Yaml
  | hashv : YamlHash → Yaml
  | other : Yaml
deriving DecidableEq, Repr

inductive YamlList where
  | nil : YamlList
  | cons : Yaml → YamlList → YamlList
deriving DecidableEq, Repr

inductive YamlHash where
  | nil : YamlHash
  | cons : Yaml → Yaml → YamlHash → YamlHash
deriving DecidableEq, Repr
end

/-- `yaml::get_exp`: a string value is the explanation, anything else "". -/
def getExp : Yaml → String
  | .str s => s
  | _ => ""

/-- The depth a new node gets in `yaml::to_tree_rec`: the surrounding root's
depth plus one, wildcard staying wildcard. -/
def incrDepth : Depth → Depth
  | .some d => .some (d + 1)
  | .any => .any

mutual
/-- `yaml::to_tree_rec` over mapping entries: for a string key, make a node
at the surrounding root's depth + 1 (value string as explanation) and append
it to `root`; when the value is a list, walk its elements with `importElems`.
Non-string keys are skipped.  The Rust function returns its `root` argument
unchanged, so only the arena is returned here. -/
def importHash (root : Nat) (arena : Arena) : YamlHash → Arena
  | .nil => arena
  | .cons key val rest =>
    let arena :=
      match key with
      | .str s =>
        let rootDepth := (arena.get root).data.depth
        let p := arena.newNode (Node.new s (getExp val) (incrDepth rootDepth))
        let arena := p.1.append root p.2
        match val with
        | .arr vec => importElems root p.2 rootDepth arena vec
        | _ => arena
      | _ => arena
    importHash root arena rest

/-- The list-element walk of `yaml::to_tree_rec`: a nested single-key mapping
recurses with `node` as the new root and the returned root (which is `node`)
is re-appended to `root`; a plain string becomes a child of `node` tagged
with `rootDepth + 1` (the Rust code reuses the outer `root_depth` here);
anything else is skipped. -/
def importElems (root node : Nat) (rootDepth : Depth) (arena : Arena) :
    YamlList → Arena
  | .nil => arena
  | .cons elem rest =>
    let arena :=
      match elem with
      | .hashv h =>
        let arena := importHash node arena h
        arena.append root node
      | .str s =>
        let p := arena.newNode (Node.new s "" (incrDepth rootDepth))
        p.1.append node p.2
      | _ => arena
    importElems root node rootDepth arena rest
end

/-- `yaml::to_tree`: build the fresh tree, import a top-level mapping into
it; any other top-level document leaves the root-only tree. -/
def toTree (y : Yaml) : Tree :=
  let t := Tree.new
  match y with
  | .hashv h => ⟨t.root, importHash t.root t.arena h⟩
  | _ => t

/-! ### Concrete fixtures -/

/-- Fixture grammar `root → sat(1) → cmd(2)`. -/
def gSatCmd : Tree :=
  ⟨0, ⟨[⟨Node.new "root" "" (.some 0), none, [1]⟩,
        ⟨Node.new "sat" "" (.some 1), Option.some 0, [2]⟩,
        ⟨Node.new "cmd" "" (.some 2), Option.some 1, []⟩]⟩⟩

/-- Fixture grammar `root → sat(1)`. -/
def gSat : Tree :=
  ⟨0, ⟨[⟨Node.new "root" "" (.some 0), none, [1]⟩,
        ⟨Node.new "sat" "" (.some 1), Option.some 0, []⟩]⟩⟩

/-- Fixture grammar with nodes literally named `".."`:
`root → ".."(1) → ".."(2)`.  Importable from the document
`{"..": [{"..": []}]}`; it exercises the go-up token's interplay with
ordinary child matching. -/
def gDots : Tree :=
  ⟨0, ⟨[⟨Node.new "root" "" (.some 0), none, [1]⟩,
        ⟨Node.new ".." "" (.some 1), Option.some 0, [2]⟩,
        ⟨Node.new ".." "" (.some 2), Option.some 1, []⟩]⟩⟩

/-- The token list of the input line `".. .. x z"`. -/
def dotsCmds : List CliCmd :=
  [⟨"..", .some 1⟩, ⟨"..", .some 2⟩, ⟨"x", .some 3⟩, ⟨"z", .some 4⟩]

/-- The configuration document `{A: [B, {C: [D]}]}` of P2. -/
def docP2 : Yaml :=
  .hashv (.cons (.str "A")
    (.arr (.cons (.str "B")
      (.cons (.hashv (.cons (.str "C") (.arr (.cons (.str "D") .nil)) .nil)) .nil)))
    .nil)

/-- The configuration document `{A: [B]}`. -/
def docAB : Yaml :=
  .hashv (.cons (.str "A") (.arr (.cons (.str "B") .nil)) .nil)

/-! ### The shape of the sequence tree

`build_subtree` appends every recorded node directly under the sequence
tree's own root, so the sequence tree is always the root with the recorded
nodes as children, in order. -/

/-- A recorded node's slot in the sequence tree. -/
def flatEntry (n : Node) : ArenaEntry := ⟨n, Option.some 0, []⟩

/-- The sequence tree recording the node list `l`. -/
def flatTree (l : List Node) : Tree :=
  ⟨0, ⟨⟨Node.new "root" "" (.some 0), none, List.range' 1 l.length⟩ :: l.map flatEntry⟩⟩

lemma treeNew_eq_flat : Tree.new = flatTree [] := rfl

lemma listModify_at_append (xs : List ArenaEntry) (e : ArenaEntry)
    (f : ArenaEntry → ArenaEntry) :
    listModify (xs ++ [e]) xs.length f = xs ++ [f e] := by
  induction xs with
  | nil => rfl
  | cons x xs ih => simpa [listModify] using ih

lemma getD_at_append (xs : List ArenaEntry) (e d : ArenaEntry) :
    (xs ++ [e]).getD xs.length d = e := by
  induction xs with
  | nil => rfl
  | cons x xs ih =>
    simp only [List.cons_append, List.length_cons, List.getD_cons_succ]
    exact ih

/-- Appending one node to a flat sequence tree yields the flat sequence tree
of the extended list. -/
lemma seqAppend_flat (l : List Node) (n : Node) :
    seqAppend (flatTree l) n = flatTree (l ++ [n]) := by
  have hgd : ((l.map flatEntry) ++ [(⟨n, none, []⟩ : ArenaEntry)]).getD l.length default
      = ⟨n, none, []⟩ := by
    have h := getD_at_append (l.map flatEntry) ⟨n, none, []⟩ default
    rwa [List.length_map] at h
  have hmod : listModify ((l.map flatEntry) ++ [(⟨n, none, []⟩ : ArenaEntry)]) l.length
      (fun e => { e with parent := Option.some 0 })
      = (l.map flatEntry) ++ [⟨n, Option.some 0, []⟩] := by
    have h := listModify_at_append (l.map flatEntry) ⟨n, none, []⟩
      (fun e => { e with parent := Option.some 0 })
    rwa [List.length_map] at h
  have hr : List.range' 1 (l.length + 1) = List.range' 1 l.length ++ [l.length + 1] := by
    have h := @List.range'_concat 1 1 l.length
    simpa [Nat.add_comm] using h
  unfold seqAppend Arena.newNode Arena.append Arena.get Arena.modify flatTree
  simp only [List.cons_append, List.length_cons, List.length_map, List.length_append,
    List.map_append, List.map_cons, List.map_nil, List.getD_cons_succ, hgd]
  simp only [listModify, hmod, List.length_nil, Nat.zero_add, hr]
  rfl


lemma flat_child_children (l : List Node) (i : Nat) (h1 : 1 ≤ i) (h2 : i ≤ l.length) :
    ((flatTree l).arena.get i).children = [] := by
  obtain ⟨j, rfl⟩ : ∃ j, i = j + 1 := ⟨i - 1, by omega⟩
  have hj' : j < (l.map flatEntry).length := by simp; omega
  unfold flatTree Arena.get
  simp only [List.getD_cons_succ]
  rw [List.getD_eq_getElem _ _ hj']
  simp [flatEntry]

lemma descAux_flat_singleton (l : List Node) (fuel i : Nat) (h1 : 1 ≤ i)
    (h2 : i ≤ l.length) (hf : 1 ≤ fuel) :
    (flatTree l).arena.descendantsAux fuel i = [i] := by
  obtain ⟨f', rfl⟩ : ∃ f', fuel = f' + 1 := ⟨fuel - 1, by omega⟩
  unfold Arena.descendantsAux
  rw [flat_child_children l i h1 h2]
  rfl

lemma flatMap_id_of_singleton (ll : List Nat) (f : Nat → List Nat)
    (h : ∀ i ∈ ll, f i = [i]) : ll.flatMap f = ll := by
  induction ll with
  | nil => rfl
  | cons x xs ih =>
    rw [List.flatMap_cons, h x (List.mem_cons_self x xs),
      ih fun i hi => h i (List.mem_cons_of_mem _ hi)]
    rfl

lemma subtreeCount_flat (l : List Node) : subtreeCount 0 (flatTree l).arena = l.length := by
  have hlen : (flatTree l).arena.nodes.length = l.length + 1 := by simp [flatTree]
  have h0 : ((flatTree l).arena.get 0).children = List.range' 1 l.length := by
    unfold flatTree Arena.get
    simp
  unfold subtreeCount Arena.descendants
  rw [hlen]
  unfold Arena.descendantsAux
  rw [h0]
  cases l with
  | nil => simp
  | cons x xs =>
    rw [flatMap_id_of_singleton]
    · simp
    · intro i hi
      rw [List.mem_range'_1] at hi
      refine descAux_flat_singleton _ _ _ hi.1 (by simp at hi ⊢; omega) (by simp)

lemma depth_eqb_any_right (d : Depth) : Depth.eqb d .any = true := by
  cases d <;> rfl

lemma cliCmdEq_up_iff (c : CliCmd) : cliCmdEqCliCmd c upClicmd = (c.cmd == "..") := by
  simp [cliCmdEqCliCmd, upClicmd, depth_eqb_any_right]

lemma buildAux_flat (valid : Arena) (cmds : List CliCmd)
    (hnu : ∀ c ∈ cmds, c.cmd ≠ "..") (root : Nat) (l : List Node) :
    ∃ m fin, buildSubtreeAux valid cmds root (flatTree l)
        = ⟨flatTree (l ++ m), fin, cmds.drop m.length⟩
      ∧ m.length ≤ cmds.length := by
  induction cmds generalizing root l with
  | nil => exact ⟨[], root, by simp [buildSubtreeAux], by simp⟩
  | cons c rest ih =>
    have hc : cliCmdEqCliCmd c upClicmd = false := by
      rw [cliCmdEq_up_iff]
      exact beq_eq_false_iff_ne.mpr (hnu c (List.mem_cons_self c rest))
    have hrest : ∀ x ∈ rest, x.cmd ≠ ".." := fun x hx => hnu x (List.mem_cons_of_mem c hx)
    cases hfind : findChild valid c (valid.get root).children with
    | none =>
      refine ⟨[], root, ?_, by simp⟩
      simp [buildSubtreeAux, hc, hfind]
    | some child =>
      obtain ⟨m', fin, heq, hle⟩ := ih hrest child (l ++ [(valid.get child).data])
      refine ⟨(valid.get child).data :: m', fin, ?_, by simp; omega⟩
      simp only [buildSubtreeAux, hc, Bool.false_eq_true, if_false, hfind,
        seqAppend_flat, heq, List.append_assoc, List.singleton_append,
        List.length_cons, List.drop_succ_cons]

lemma flatTree_root (l : List Node) : (flatTree l).root = 0 := rfl

lemma stripWhitespace_ne_cd_dash (input : String) : stripWhitespace input ≠ "cd -" := by
  intro h
  have hd : (stripWhitespace input).toList = "cd -".toList := by rw [h]
  have heq : (stripWhitespace input).toList
      = input.toList.filter (fun c => !c.isWhitespace) := rfl
  rw [heq] at hd
  have hm : ' ' ∈ input.toList.filter (fun c => !c.isWhitespace) := by
    rw [hd]; decide
  have := (List.mem_filter.mp hm).2
  simp at this

/-! ### The claims -/

/-- C9: depth equality — a wildcard depth compares equal to any numeric
depth (on either side), two numeric depths compare equal exactly when their
values are identical, and two wildcard depths compare equal. -/
theorem C9_depth_equality :
    (∀ n : Nat, Depth.eqb .any (.some n) = true ∧ Depth.eqb (.some n) .any = true)
    ∧ (∀ m n : Nat, Depth.eqb (.some m) (.some n) = true ↔ m = n)
    ∧ Depth.eqb .any .any = true :=
  ⟨fun _ => ⟨rfl, rfl⟩, fun m n => by simp [Depth.eqb], rfl⟩

/-- Definition following the words of claim C8 ("full Node equality": names,
explanations and depths), for comparison with the source's token comparison.
A token carries no explanation of its own, so its explanation side is
`none`. -/
def specTokenNodeEq (c : CliCmd) (n : Node) : Bool :=
  Node.eqb ⟨c.cmd, none, c.depth⟩ n

/-- C8 counterexample: the token `"a"@1` matches the grammar node `"a"@1`
carrying explanation `"help"` under the source's comparison
(`impl PartialEq<Node> for CliCmd` compares name and depth only), while full
Node equality rejects the pair because the explanations differ. -/
theorem C8_cex :
    cliCmdEqNode ⟨"a", .some 1⟩ ⟨"a", Option.some "help", .some 1⟩ = true
    ∧ specTokenNodeEq ⟨"a", .some 1⟩ ⟨"a", Option.some "help", .some 1⟩ = false := by
  decide

/-- C8 amended: a token matches a grammar node if and only if their names
are equal and their depths compare equal under depth-equality; the node's
explanation is not compared. -/
theorem C8_match_rule (c : CliCmd) (n : Node) :
    cliCmdEqNode c n = true ↔ (c.cmd = n.name ∧ Depth.eqb c.depth n.depth = true) := by
  simp [cliCmdEqNode]

/-- C7 (code bug): in the grammar `root → sat`, `current_root = sat` has a
grammar-parent (`root`, id 0), yet the navigation input `"cd ..\n"` returns
`current_root = sat` (id 1) with prompt `"sat/"`: `change_root` takes the
first element of the `ancestors` iterator, which is the node itself, so
`cd ..` never moves to the parent.  The claim expects `(0, "")`. -/
theorem C7_cd_dotdot_eval :
    (gSat.arena.get 1).parent = Option.some 0
    ∧ changeRoot gSat 1 none "cd ..\n" = (1, "sat/") := by
  decide

/-- C2 (code bug): matching `[sat@1, cmd@2, ".."@3]` against
`root → sat(1) → cmd(2)` from the root.  When the go-up token is processed
at `R = cmd`, the code appends a copy of `cmd` itself (the first element of
`ancestors`, not the parent `sat`) and leaves `R` at `cmd` (id 2); the claim
says a copy of the parent `sat` is appended and `R` moves to `sat`. -/
theorem C2_go_up_eval :
    buildSubtree gSatCmd.arena 0 [⟨"sat", .some 1⟩, ⟨"cmd", .some 2⟩, ⟨"..", .some 3⟩]
      = ⟨flatTree [Node.new "sat" "" (.some 1), Node.new "cmd" "" (.some 2),
                   Node.new "cmd" "" (.some 2)],
         2, [⟨"..", .some 3⟩]⟩ := by
  decide

/-- C6 (code bug): `prev_root` is assigned by no line that processes input —
`runLine` returns it untouched in every branch — and consequently `cd sat`
followed by `cd -` leaves `current_root` at `sat` (id 1, prompt `"sat/"`)
instead of restoring the grammar root: the `cd -` comparison is against the
whitespace-stripped input and can never match `"cd -"`, so `cd -` falls
through to relative-path resolution of `"-"`, which matches nothing. -/
theorem C6_prev_root :
    (∀ (cfg : Tree) (s : CliState) (input : String),
        (runLine cfg s input).prevRoot = s.prevRoot)
    ∧ runLine gSat (runLine gSat ⟨0, "", none⟩ "cd sat\n") "cd -\n"
        = ⟨1, "sat/", none⟩ := by
  constructor
  · intro cfg s input
    unfold runLine
    split
    · rfl
    · split
      · rfl
      · split <;> rfl
  · decide

/-- C3 (code bug): the import of `{A: [B, {C: [D]}]}`.  The tree structure
is `root → A → {B, C → D}` as the claim describes, but the plain-string list
elements B and D are tagged with the *enclosing* `root_depth + 1` — their
parent's own depth — so B carries depth 1 (the claim says 2) and D carries
depth 2 (the claim says 3). -/
theorem C3_import_shape_eval :
    toTree docP2
      = ⟨0, ⟨[⟨Node.new "root" "" (.some 0), none, [1]⟩,
              ⟨Node.new "A" "" (.some 1), Option.some 0, [2, 3]⟩,
              ⟨Node.new "B" "" (.some 1), Option.some 1, []⟩,
              ⟨Node.new "C" "" (.some 2), Option.some 1, [4]⟩,
              ⟨Node.new "D" "" (.some 2), Option.some 3, []⟩]⟩⟩ := by
  decide

/-- C4 (code bug): in the grammar imported from `{A: [B]}` the non-root node
B (id 2) has parent A (id 1); A's depth is 1 but B's recorded depth is also
1, not parent depth + 1 = 2, so the claimed depth invariant fails. -/
theorem C4_depth_invariant_eval :
    ((toTree docAB).arena.get 2).parent = Option.some 1
    ∧ ((toTree docAB).arena.get 1).data.depth = .some 1
    ∧ ((toTree docAB).arena.get 2).data.depth = .some 1 := by
  decide

/-- C1 counterexample: in the grammar `root → ".."(1) → ".."(2)` the token
list of the line `".. .. x z"` records 4 nodes in the sequence tree — equal
to the token count — although the matcher stopped prematurely: token `x`
matched no child and token `z` was never evaluated. -/
theorem C1_cex :
    subtreeCount (buildSubtree gDots.arena 0 dotsCmds).seq.root
        (buildSubtree gDots.arena 0 dotsCmds).seq.arena = dotsCmds.length
    ∧ (buildSubtree gDots.arena 0 dotsCmds).unconsumed
        = [⟨"x", .some 3⟩, ⟨"z", .some 4⟩] := by
  decide

/-- C1 amended: the outcome is ACCEPTED iff the sequence tree records
exactly `n` nodes and the final node has zero strict descendants; and —
provided no token is the go-up token `".."` — the recorded count equals `n`
exactly when every token was consumed with no premature stop. -/
theorem C1_acceptance (cfg : Tree) (start : Nat) (input : String) :
    (handleInputAccepted cfg start input = true ↔
      (subtreeCount (buildSubtree cfg.arena start (constructClicmds input ' ')).seq.root
          (buildSubtree cfg.arena start (constructClicmds input ' ')).seq.arena
        = (constructClicmds input ' ').length
       ∧ subtreeCount (buildSubtree cfg.arena start (constructClicmds input ' ')).final
          cfg.arena = 0))
    ∧ ((∀ c ∈ constructClicmds input ' ', c.cmd ≠ "..") →
       (subtreeCount (buildSubtree cfg.arena start (constructClicmds input ' ')).seq.root
          (buildSubtree cfg.arena start (constructClicmds input ' ')).seq.arena
        = (constructClicmds input ' ').length
        ↔ (buildSubtree cfg.arena start (constructClicmds input ' ')).unconsumed = [])) := by
  constructor
  · simp [handleInputAccepted, acceptedCmds]
  · intro hnu
    obtain ⟨m, fin, heq, hle⟩ :=
      buildAux_flat cfg.arena (constructClicmds input ' ') hnu start []
    have hb : buildSubtree cfg.arena start (constructClicmds input ' ')
        = ⟨flatTree m, fin, (constructClicmds input ' ').drop m.length⟩ := by
      unfold buildSubtree
      rw [treeNew_eq_flat]
      simpa using heq
    rw [hb]
    simp only [flatTree_root]
    rw [subtreeCount_flat]
    constructor
    · intro h
      exact List.drop_eq_nil_iff.mpr (by omega)
    · intro h
      have := List.drop_eq_nil_iff.mp h
      omega

/-- C5 counterexample: with the grammar `root → ".."(1) → ".."(2)` the input
line `".. .. x z\n"` stops prematurely (token `x` matches no child; `z` is
never evaluated) yet the printed outcome is ACCEPTED, not USAGE. -/
theorem C5_cex :
    handleInputAccepted gDots 0 ".. .. x z\n" = true
    ∧ (buildSubtree gDots.arena 0 (constructClicmds ".. .. x z\n" ' ')).unconsumed ≠ [] := by
  decide

/-- C5 amended: for token lists in which no token is the go-up token `".."`,
a premature stop (some token matched no child, leaving unconsumed tokens)
yields the USAGE outcome, the sequence tree records exactly the nodes
matched before the stop, and the unconsumed tokens are exactly the trailing
tokens from the failing one on. -/
theorem C5_premature_stop (cfg : Tree) (start : Nat) (cmds : List CliCmd)
    (hnu : ∀ c ∈ cmds, c.cmd ≠ "..")
    (hstop : (buildSubtree cfg.arena start cmds).unconsumed ≠ []) :
    acceptedCmds cfg start cmds = false
    ∧ subtreeCount (buildSubtree cfg.arena start cmds).seq.root
        (buildSubtree cfg.arena start cmds).seq.arena
      = cmds.length - (buildSubtree cfg.arena start cmds).unconsumed.length
    ∧ (buildSubtree cfg.arena start cmds).unconsumed
      = cmds.drop (cmds.length - (buildSubtree cfg.arena start cmds).unconsumed.length) := by
  obtain ⟨m, fin, heq, hle⟩ := buildAux_flat cfg.arena cmds hnu start []
  have hb : buildSubtree cfg.arena start cmds = ⟨flatTree m, fin, cmds.drop m.length⟩ := by
    unfold buildSubtree
    rw [treeNew_eq_flat]
    simpa using heq
  rw [hb] at hstop ⊢
  have hlt : m.length < cmds.length := by
    rcases Nat.lt_or_ge m.length cmds.length with h | h
    · exact h
    · exact absurd (List.drop_eq_nil_iff.mpr h) hstop
  have hdl : (cmds.drop m.length).length = cmds.length - m.length := List.length_drop _ _
  refine ⟨?_, ?_, ?_⟩
  · simp only [acceptedCmds, hb]
    simp only [flatTree_root]
    rw [subtreeCount_flat]
    have hne : (m.length == cmds.length) = false :=
      beq_eq_false_iff_ne.mpr (Nat.ne_of_lt hlt)
    simp [hne]
  · simp only [flatTree_root]
    rw [subtreeCount_flat, hdl]
    omega
  · rw [hdl]
    have hsub : cmds.length - (cmds.length - m.length) = m.length := by omega
    rw [hsub]

/-- Witness tokens for `C5_premature_stop`: `sat bogus x`. -/
def wCmds : List CliCmd := [⟨"sat", .some 1⟩, ⟨"bogus", .some 2⟩, ⟨"x", .some 3⟩]

theorem C5_premature_stop_witness :
    acceptedCmds gSatCmd 0 wCmds = false
    ∧ subtreeCount (buildSubtree gSatCmd.arena 0 wCmds).seq.root
        (buildSubtree gSatCmd.arena 0 wCmds).seq.arena
      = wCmds.length - (buildSubtree gSatCmd.arena 0 wCmds).unconsumed.length
    ∧ (buildSubtree gSatCmd.arena 0 wCmds).unconsumed
      = wCmds.drop (wCmds.length - (buildSubtree gSatCmd.arena 0 wCmds).unconsumed.length) :=
  C5_premature_stop gSatCmd 0 wCmds (by decide) (by decide)

/-- C10: every line whose first two characters are `cd` is routed to
navigation, and a routed line matching none of the recognized `cd` forms
(`cd`, `cd -`, `cd ..`, `cd /<path>`, `cd <path>`) makes `change_root` fall
through every branch, setting `current_root` to the grammar root and the
prompt to the empty string. -/
theorem C10_unrecognized_cd (cfg : Tree) (s : CliState) (input : String)
    (hcd2 : ∃ rest, input.toList = 'c' :: 'd' :: rest)
    (hf1 : stripWhitespace input ≠ "cd")
    (_hf2 : stripWhitespace input ≠ "cd-")
    (hf3 : input ≠ "cd ..\n")
    (hf4 : strStartsWith input "cd /" = false)
    (hf5 : strStartsWith input "cd " = false) :
    shouldChangeRoot input = true
    ∧ runLine cfg s input = ⟨cfg.root, "", s.prevRoot⟩ := by
  obtain ⟨rest, hrest⟩ := hcd2
  have hlen : 2 ≤ input.length := by
    show 2 ≤ input.toList.length
    rw [hrest]
    simp
  have hscr : shouldChangeRoot input = true := by
    unfold shouldChangeRoot
    rw [if_pos hlen, hrest]
    simp
  have hexit : shouldExit input = false := by
    have h1 : input ≠ "exit\n" := by
      intro h
      rw [h] at hrest
      simp at hrest
    have h2 : input ≠ "quit\n" := by
      intro h
      rw [h] at hrest
      simp at hrest
    simp [shouldExit, h1, h2]
  have hnp : shouldNewPrompt input = false := by
    have h1 : input ≠ "\n" := by
      intro h
      rw [h] at hrest
      simp at hrest
    simp [shouldNewPrompt, h1]
  have d1 : (stripWhitespace input == "cd") = false := beq_eq_false_iff_ne.mpr hf1
  have d2 : (stripWhitespace input == "cd -") = false :=
    beq_eq_false_iff_ne.mpr (stripWhitespace_ne_cd_dash input)
  have d3 : (input == "cd ..\n") = false := beq_eq_false_iff_ne.mpr hf3
  refine ⟨hscr, ?_⟩
  simp only [runLine, hexit, hnp, hscr, Bool.false_eq_true, if_false, if_true]
  simp only [changeRoot, d1, d2, d3, hf4, hf5, Bool.false_eq_true, if_false]
  rfl

theorem C10_unrecognized_cd_witness :
    shouldChangeRoot "cdfoo\n" = true
    ∧ runLine gSat ⟨1, "sat/", Option.some 0⟩ "cdfoo\n"
        = ⟨gSat.root, "", (⟨1, "sat/", Option.some 0⟩ : CliState).prevRoot⟩ :=
  C10_unrecognized_cd gSat ⟨1, "sat/", Option.some 0⟩ "cdfoo\n"
    ⟨['f', 'o', 'o', '\n'], by decide⟩ (by decide) (by decide) (by decide)
    (by decide) (by decide)
end GsCli
